import Mathlib

/-!
# Verification of the `ocr` command-line tool

A shallow embedding, in Lean 4, of the parts of the `ocr` repository (Go)
that the specification's claims are about:

* the JSON value model and a model of Go's `encoding/json` unmarshaling
  into the repository's typed structs (`OCRResponse`, `Page`, `Image`,
  `ChatResponse`, `ImageMetadata`), including Go's behaviour on missing
  fields, `null`, and wrong-typed fields;
* a model of Go's `encoding/base64` standard encoding and decoding;
* the client's request/response handling (`doRequest`, `ProcessDocument`,
  `AnalyzeImage`) from `client.go`;
* the output pipeline of `main.go` (`extractText`, `extractImages`,
  `saveImage`, `imageExtension`, `saveAnnotation`, and the post-response
  part of `run`), with filesystem effects modelled as an explicit list of
  events and stderr error reports as an explicit list of messages.

Text is modelled as `List Char` (`Str`); bytes as `Nat` lists with values
below 256.  Filesystem writes themselves are modelled as always succeeding
(the spec treats the filesystem as a collaborator); the failures modelled
are the ones the code produces itself: base64 decode errors, JSON parse
errors, and annotation normalization errors.
-/

/-- Text, modelled as a list of characters (Go strings are byte slices;
all text the claims exercise is well-formed UTF-8, which Lean's `Char`
lists represent faithfully). -/
abbrev Str := List Char

/-- Bytes, as natural numbers below 256. -/
abbrev Bytes := List Nat

/-- Substring test, modelling Go's `strings.Contains`: the pattern must
occur as a contiguous run at some position. -/
def containsSub (pat : Str) : Str → Bool
  | [] => pat.isEmpty
  | c :: cs => pat.isPrefixOf (c :: cs) || containsSub pat cs

/-- Whitespace for Go's `unicode.IsSpace` (used by `strings.TrimSpace`):
ASCII space characters plus the Unicode space code points. -/
def goIsSpace (c : Char) : Bool :=
  let n := c.toNat
  (0x09 <= n && n <= 0x0D) || n == 0x20 || n == 0x85 || n == 0xA0 || n == 0x1680 ||
  (0x2000 <= n && n <= 0x200A) || n == 0x2028 || n == 0x2029 || n == 0x202F ||
  n == 0x205F || n == 0x3000

/-- Model of Go's `strings.TrimSpace` (leading and trailing whitespace
removed). -/
def goTrimSpace (s : Str) : Str :=
  ((s.dropWhile goIsSpace).reverse.dropWhile goIsSpace).reverse

/-- Model of Go's `strings.HasPrefix`. -/
def goHasPrefix (pre s : Str) : Bool := pre.isPrefixOf s

/-! ## The JSON value model

Go's `encoding/json` decodes straight from bytes into the target value; we
factor this into a parse to a `Json` tree followed by a typed unmarshal,
which is observationally the same.  `num` keeps the number's literal
spelling, which is what Go's decoder keeps before converting per target
type.  `obj` keeps fields in source order, duplicates included, so that
struct unmarshaling can process occurrences in order exactly as Go does;
map semantics (last occurrence wins, keys sorted on output) are applied at
the point Go applies them. -/

inductive Json where
  | null : Json
  | bool (b : Bool) : Json
  | num (lit : Str) : Json
  | str (s : Str) : Json
  | arr (elems : List Json) : Json
  | obj (fields : List (Str × Json)) : Json

mutual

/-- Structural equality test for `Json`; the nested `List` positions keep
the `deriving` handler from applying, so it is a mutual recursion. -/
def Json.beq : Json → Json → Bool
  | .null, .null => true
  | .bool a, .bool b => a == b
  | .num a, .num b => a == b
  | .str a, .str b => a == b
  | .arr a, .arr b => Json.beqList a b
  | .obj a, .obj b => Json.beqFields a b
  | _, _ => false

def Json.beqList : List Json → List Json → Bool
  | [], [] => true
  | x :: xs, y :: ys => Json.beq x y && Json.beqList xs ys
  | _, _ => false

def Json.beqFields : List (Str × Json) → List (Str × Json) → Bool
  | [], [] => true
  | (k₁, v₁) :: xs, (k₂, v₂) :: ys => k₁ == k₂ && Json.beq v₁ v₂ && Json.beqFields xs ys
  | _, _ => false

end

mutual

theorem Json.beq_iff_eq : ∀ a b : Json, Json.beq a b = true ↔ a = b
  | .null, .null => by simp [Json.beq]
  | .bool _, .bool _ => by simp [Json.beq]
  | .num _, .num _ => by simp [Json.beq]
  | .str _, .str _ => by simp [Json.beq]
  | .arr x, .arr y => by simp [Json.beq, Json.beqList_iff_eq x y]
  | .obj x, .obj y => by simp [Json.beq, Json.beqFields_iff_eq x y]
  | .null, .bool _ | .null, .num _ | .null, .str _ | .null, .arr _ | .null, .obj _
  | .bool _, .null | .bool _, .num _ | .bool _, .str _ | .bool _, .arr _ | .bool _, .obj _
  | .num _, .null | .num _, .bool _ | .num _, .str _ | .num _, .arr _ | .num _, .obj _
  | .str _, .null | .str _, .bool _ | .str _, .num _ | .str _, .arr _ | .str _, .obj _
  | .arr _, .null | .arr _, .bool _ | .arr _, .num _ | .arr _, .str _ | .arr _, .obj _
  | .obj _, .null | .obj _, .bool _ | .obj _, .num _ | .obj _, .str _ | .obj _, .arr _ => by
    simp [Json.beq]

theorem Json.beqList_iff_eq : ∀ xs ys : List Json, Json.beqList xs ys = true ↔ xs = ys
  | [], [] => by simp [Json.beqList]
  | x :: xs, y :: ys => by simp [Json.beqList, Json.beq_iff_eq x y, Json.beqList_iff_eq xs ys]
  | [], _ :: _ => by simp [Json.beqList]
  | _ :: _, [] => by simp [Json.beqList]

theorem Json.beqFields_iff_eq :
    ∀ xs ys : List (Str × Json), Json.beqFields xs ys = true ↔ xs = ys
  | [], [] => by simp [Json.beqFields]
  | (k₁, v₁) :: xs, (k₂, v₂) :: ys => by
    simp [Json.beqFields, Json.beq_iff_eq v₁ v₂, Json.beqFields_iff_eq xs ys, and_assoc,
      Prod.ext_iff]
  | [], _ :: _ => by simp [Json.beqFields]
  | _ :: _, [] => by simp [Json.beqFields]

end

instance : DecidableEq Json := fun a b =>
  decidable_of_iff (Json.beq a b = true) (Json.beq_iff_eq a b)

/-! ## A model of Go's JSON text grammar

Faithful to `encoding/json`'s scanner: structural whitespace is space,
tab, newline and carriage return; strings reject raw control characters
and unknown escapes and replace invalid surrogate escapes with U+FFFD;
numbers follow the RFC 8259 grammar.  The value reader takes fuel, which
the top-level entry point supplies in excess of any possible nesting
depth. -/

/-- Whitespace between JSON tokens. -/
def jsonIsSpace (c : Char) : Bool :=
  c = ' ' || c = '\t' || c = '\n' || c = '\r'

def skipWs (s : Str) : Str := s.dropWhile jsonIsSpace

def hexVal (c : Char) : Option Nat :=
  if '0' ≤ c ∧ c ≤ '9' then some (c.toNat - '0'.toNat)
  else if 'a' ≤ c ∧ c ≤ 'f' then some (c.toNat - 'a'.toNat + 10)
  else if 'A' ≤ c ∧ c ≤ 'F' then some (c.toNat - 'A'.toNat + 10)
  else none

/-- Read the remainder of a JSON string (the opening quote already
consumed), decoding escapes; returns the decoded text and what follows
the closing quote.  Every step consumes at least one character, so fuel
one beyond the input length never runs out. -/
def parseJString : Nat → Str → Option (Str × Str)
  | 0, _ => none
  | _, [] => none
  | _, '"' :: rest => some ([], rest)
  | fuel + 1, '\\' :: esc =>
    match esc with
    | '"' :: t => (parseJString fuel t).map (fun p => ('"' :: p.1, p.2))
    | '\\' :: t => (parseJString fuel t).map (fun p => ('\\' :: p.1, p.2))
    | '/' :: t => (parseJString fuel t).map (fun p => ('/' :: p.1, p.2))
    | 'b' :: t => (parseJString fuel t).map (fun p => ('\x08' :: p.1, p.2))
    | 'f' :: t => (parseJString fuel t).map (fun p => ('\x0c' :: p.1, p.2))
    | 'n' :: t => (parseJString fuel t).map (fun p => ('\n' :: p.1, p.2))
    | 'r' :: t => (parseJString fuel t).map (fun p => ('\r' :: p.1, p.2))
    | 't' :: t => (parseJString fuel t).map (fun p => ('\t' :: p.1, p.2))
    | 'u' :: h1 :: h2 :: h3 :: h4 :: t =>
      match hexVal h1, hexVal h2, hexVal h3, hexVal h4 with
      | some a, some b, some c, some d =>
        let n := ((a * 16 + b) * 16 + c) * 16 + d
        if 0xD800 ≤ n ∧ n ≤ 0xDBFF then
          match t with
          | '\\' :: 'u' :: k1 :: k2 :: k3 :: k4 :: t2 =>
            match hexVal k1, hexVal k2, hexVal k3, hexVal k4 with
            | some a2, some b2, some c2, some d2 =>
              let m := ((a2 * 16 + b2) * 16 + c2) * 16 + d2
              if 0xDC00 ≤ m ∧ m ≤ 0xDFFF then
                (parseJString fuel t2).map
                  (fun p =>
                    (Char.ofNat (0x10000 + (n - 0xD800) * 0x400 + (m - 0xDC00)) :: p.1, p.2))
              else (parseJString fuel t).map (fun p => ('�' :: p.1, p.2))
            | _, _, _, _ => (parseJString fuel t).map (fun p => ('�' :: p.1, p.2))
          | _ => (parseJString fuel t).map (fun p => ('�' :: p.1, p.2))
        else if 0xDC00 ≤ n ∧ n ≤ 0xDFFF then
          (parseJString fuel t).map (fun p => ('�' :: p.1, p.2))
        else
          (parseJString fuel t).map (fun p => (Char.ofNat n :: p.1, p.2))
      | _, _, _, _ => none
    | _ => none
  | fuel + 1, c :: rest =>
    if c.toNat < 0x20 then none
    else (parseJString fuel rest).map (fun p => (c :: p.1, p.2))

/-- The optional exponent part of a number literal; returns the full
literal and the rest of the input. -/
def numAfterFrac (lit : Str) (s : Str) : Option (Str × Str) :=
  match s with
  | c :: r =>
    if c = 'e' ∨ c = 'E' then
      let sr :=
        match r with
        | '+' :: r2 => (['+'], r2)
        | '-' :: r2 => (['-'], r2)
        | _ => (([] : Str), r)
      let ds := sr.2.takeWhile Char.isDigit
      if ds.isEmpty then none
      else some (lit ++ c :: sr.1 ++ ds, sr.2.dropWhile Char.isDigit)
    else some (lit, s)
  | [] => some (lit, [])

/-- The optional fraction part of a number literal. -/
def numAfterInt (lit : Str) (s : Str) : Option (Str × Str) :=
  match s with
  | '.' :: r =>
    let ds := r.takeWhile Char.isDigit
    if ds.isEmpty then none
    else numAfterFrac (lit ++ '.' :: ds) (r.dropWhile Char.isDigit)
  | _ => numAfterFrac lit s

/-- Read a JSON number literal (RFC 8259 grammar); returns the literal's
characters and the rest of the input. -/
def parseJNumber (s : Str) : Option (Str × Str) :=
  let ns :=
    match s with
    | '-' :: r => ((['-'] : Str), r)
    | _ => (([] : Str), s)
  match ns.2 with
  | c :: r =>
    if c = '0' then numAfterInt (ns.1 ++ [c]) r
    else if c.isDigit then
      numAfterInt (ns.1 ++ c :: r.takeWhile Char.isDigit) (r.dropWhile Char.isDigit)
    else none
  | [] => none

mutual

/-- Read one JSON value; fuel bounds the recursion and is supplied in
excess by `goParseJson`. -/
def parseJValue : Nat → Str → Option (Json × Str)
  | 0, _ => none
  | fuel + 1, s =>
    match skipWs s with
    | 'n' :: 'u' :: 'l' :: 'l' :: r => some (.null, r)
    | 't' :: 'r' :: 'u' :: 'e' :: r => some (.bool true, r)
    | 'f' :: 'a' :: 'l' :: 's' :: 'e' :: r => some (.bool false, r)
    | '"' :: r => (parseJString (r.length + 1) r).map (fun p => (.str p.1, p.2))
    | '[' :: r =>
      (match skipWs r with
       | ']' :: r2 => some (.arr [], r2)
       | _ => (parseJElems fuel r).map (fun p => (.arr p.1, p.2)))
    | '{' :: r =>
      (match skipWs r with
       | '}' :: r2 => some (.obj [], r2)
       | _ => (parseJFields fuel r).map (fun p => (.obj p.1, p.2)))
    | s1 => (parseJNumber s1).map (fun p => (.num p.1, p.2))

/-- Read the elements of a non-empty array, up to and including the
closing bracket. -/
def parseJElems : Nat → Str → Option (List Json × Str)
  | 0, _ => none
  | fuel + 1, s =>
    match parseJValue fuel s with
    | none => none
    | some (v, r) =>
      match skipWs r with
      | ',' :: r2 => (parseJElems fuel r2).map (fun p => (v :: p.1, p.2))
      | ']' :: r2 => some ([v], r2)
      | _ => none

/-- Read the fields of a non-empty object, up to and including the
closing brace. -/
def parseJFields : Nat → Str → Option (List (Str × Json) × Str)
  | 0, _ => none
  | fuel + 1, s =>
    match skipWs s with
    | '"' :: r =>
      (match parseJString (r.length + 1) r with
       | none => none
       | some (k, r2) =>
         match skipWs r2 with
         | ':' :: r3 =>
           (match parseJValue fuel r3 with
            | none => none
            | some (v, r4) =>
              match skipWs r4 with
              | ',' :: r5 => (parseJFields fuel r5).map (fun p => ((k, v) :: p.1, p.2))
              | '}' :: r5 => some ([(k, v)], r5)
              | _ => none)
         | _ => none)
    | _ => none

end

/-- Model of parsing one complete JSON text, as Go's `json.Unmarshal`
requires: exactly one value, with only whitespace after it.  The fuel
`2 * length + 8` exceeds any nesting the input can express, since each
two fuel steps consume at least one input character. -/
def goParseJson (s : Str) : Option Json :=
  match parseJValue (2 * s.length + 8) s with
  | some (v, rest) => if (skipWs rest).isEmpty then some v else none
  | none => none

/-! ## Go number-to-int conversion and `MarshalIndent`

Decoding a JSON number into a Go `int` calls `strconv.ParseInt` on the
literal, which accepts only an optional sign followed by digits; `1.0` and
`1e2` are errors.  Page indexes and coordinates in real responses are far
below 2^63, so the model uses unbounded integers (overflow never matters
for any claim).  `MarshalIndent(v, "", "  ")` pretty-prints with
two-space indentation, a space after each colon, object keys sorted (Go
maps are rendered in sorted key order) with the last occurrence of a
repeated key winning, and the encoder's default HTML-escaping of strings.
Go re-formats numbers via `float64`; no claim observes a number in
marshaled output, and the model keeps the literal spelling. -/

def digitsToNat (ds : Str) : Nat :=
  ds.foldl (fun a c => a * 10 + (c.toNat - '0'.toNat)) 0

/-- `strconv.ParseInt` on a JSON number literal (base 10). -/
def parseIntLit (lit : Str) : Option Int :=
  match lit with
  | '-' :: ds =>
    if ds ≠ [] ∧ ds.all Char.isDigit then some (-(digitsToNat ds : Int)) else none
  | ds =>
    if ds ≠ [] ∧ ds.all Char.isDigit then some ((digitsToNat ds : Int)) else none

/-- One character of Go's JSON string encoder (HTML escaping on, the
`json.Marshal` default). -/
def goEscapeChar (c : Char) : Str :=
  if c = '"' then ['\\', '"']
  else if c = '\\' then ['\\', '\\']
  else if c = '\n' then ['\\', 'n']
  else if c = '\r' then ['\\', 'r']
  else if c = '\t' then ['\\', 't']
  else if c = '<' then "\\u003c".toList
  else if c = '>' then "\\u003e".toList
  else if c = '&' then "\\u0026".toList
  else if c.toNat < 0x20 then
    "\\u00".toList ++
      [if c.toNat / 16 < 10 then Char.ofNat ('0'.toNat + c.toNat / 16)
       else Char.ofNat ('a'.toNat + (c.toNat / 16 - 10)),
       if c.toNat % 16 < 10 then Char.ofNat ('0'.toNat + c.toNat % 16)
       else Char.ofNat ('a'.toNat + (c.toNat % 16 - 10))]
  else if c.toNat = 0x2028 then "\\u2028".toList
  else if c.toNat = 0x2029 then "\\u2029".toList
  else [c]

/-- A Go-encoded JSON string literal, quotes included. -/
def quoteJString (s : Str) : Str :=
  '"' :: (s.map goEscapeChar).flatten ++ ['"']

/-- Byte-wise (here code-point-wise) string order, as Go's `<` on
strings; all keys the program meets are ASCII, where the two agree. -/
def strLe : Str → Str → Bool
  | [], _ => true
  | _ :: _, [] => false
  | a :: as, b :: bs =>
    if a.toNat < b.toNat then true
    else if b.toNat < a.toNat then false
    else strLe as bs

/-- Replace the value of an existing key, else append: building a Go map
from object fields makes the last occurrence of a key win. -/
def fieldPut (fields : List (Str × Json)) (k : Str) (v : Json) : List (Str × Json) :=
  match fields with
  | [] => [(k, v)]
  | (k0, v0) :: rest =>
    if k0 = k then (k0, v) :: rest else (k0, v0) :: fieldPut rest k v

def dedupeFields (fields : List (Str × Json)) : List (Str × Json) :=
  fields.foldl (fun acc kv => fieldPut acc kv.1 kv.2) []

def insertSorted (kv : Str × Json) : List (Str × Json) → List (Str × Json)
  | [] => [kv]
  | kv0 :: rest =>
    if strLe kv.1 kv0.1 then kv :: kv0 :: rest else kv0 :: insertSorted kv rest

/-- Sort object fields by key, as Go renders a map. -/
def sortFields (fields : List (Str × Json)) : List (Str × Json) :=
  fields.foldr insertSorted []

def indentOf (depth : Nat) : Str := List.replicate (2 * depth) ' '

mutual

/-- A size measure on `Json` values, exceeding their nesting depth; it
serves as fuel for the marshaler. -/
def jsonSize : Json → Nat
  | .null | .bool _ | .num _ | .str _ => 1
  | .arr elems => 1 + jsonSizeList elems
  | .obj fields => 1 + jsonSizeFields fields

def jsonSizeList : List Json → Nat
  | [] => 0
  | x :: xs => jsonSize x + jsonSizeList xs

def jsonSizeFields : List (Str × Json) → Nat
  | [] => 0
  | (_, v) :: xs => jsonSize v + jsonSizeFields xs

end

/-- The body of the `MarshalIndent` model.  Fuel bounds the nesting
depth; `goMarshalIndent` supplies `jsonSize`, which exceeds it. -/
def marshalV : Nat → Json → Nat → Str
  | 0, _, _ => []
  | fuel + 1, j, depth =>
    match j with
    | .null => "null".toList
    | .bool true => "true".toList
    | .bool false => "false".toList
    | .num lit => lit
    | .str s => quoteJString s
    | .arr [] => "[]".toList
    | .arr elems =>
      let items := elems.map (fun x => indentOf (depth + 1) ++ marshalV fuel x (depth + 1))
      '[' :: '\n' :: (List.intercalate (",\n".toList) items) ++
        '\n' :: indentOf depth ++ [']']
    | .obj fields =>
      let m := sortFields (dedupeFields fields)
      match m with
      | [] => "{}".toList
      | _ :: _ =>
        let items := m.map (fun kv =>
          indentOf (depth + 1) ++ quoteJString kv.1 ++ ':' :: ' ' ::
            marshalV fuel kv.2 (depth + 1))
        '{' :: '\n' :: (List.intercalate (",\n".toList) items) ++
          '\n' :: indentOf depth ++ ['}']

/-- Model of `json.MarshalIndent(v, "", "  ")`. -/
def goMarshalIndent (j : Json) : Str := marshalV (jsonSize j) j 0

/-! ## Go's `encoding/base64` standard encoding

`StdEncoding`: the `A-Za-z0-9+/` alphabet with `=` padding.  Decoding
ignores `\r` and `\n`, requires complete four-character quanta with
padding only in the final quantum, and (like Go's non-strict default)
does not insist that trailing padding bits be zero. -/

def b64Char (v : Nat) : Char :=
  if v < 26 then Char.ofNat ('A'.toNat + v)
  else if v < 52 then Char.ofNat ('a'.toNat + (v - 26))
  else if v < 62 then Char.ofNat ('0'.toNat + (v - 52))
  else if v = 62 then '+'
  else '/'

def b64Val (c : Char) : Option Nat :=
  if 'A' ≤ c ∧ c ≤ 'Z' then some (c.toNat - 'A'.toNat)
  else if 'a' ≤ c ∧ c ≤ 'z' then some (c.toNat - 'a'.toNat + 26)
  else if '0' ≤ c ∧ c ≤ '9' then some (c.toNat - '0'.toNat + 52)
  else if c = '+' then some 62
  else if c = '/' then some 63
  else none

/-- `base64.StdEncoding.EncodeToString`. -/
def encodeB64 : Bytes → Str
  | [] => []
  | [b1] => [b64Char (b1 / 4), b64Char (b1 % 4 * 16), '=', '=']
  | [b1, b2] => [b64Char (b1 / 4), b64Char (b1 % 4 * 16 + b2 / 16), b64Char (b2 % 16 * 4), '=']
  | b1 :: b2 :: b3 :: rest =>
    b64Char (b1 / 4) :: b64Char (b1 % 4 * 16 + b2 / 16) ::
      b64Char (b2 % 16 * 4 + b3 / 64) :: b64Char (b3 % 64) :: encodeB64 rest

def decodeB64Quanta : Str → Option Bytes
  | [] => some []
  | a :: b :: c :: d :: rest => do
    let va ← b64Val a
    let vb ← b64Val b
    if c = '=' then
      if d = '=' ∧ rest = [] then some [va * 4 + vb / 16] else none
    else do
      let vc ← b64Val c
      if d = '=' then
        if rest = [] then some [va * 4 + vb / 16, vb % 16 * 16 + vc / 4] else none
      else do
        let vd ← b64Val d
        let tl ← decodeB64Quanta rest
        some ((va * 4 + vb / 16) :: (vb % 16 * 16 + vc / 4) :: (vc % 4 * 64 + vd) :: tl)
  | _ => none

/-- `base64.StdEncoding.DecodeString`. -/
def decodeB64 (s : Str) : Option Bytes :=
  decodeB64Quanta (s.filter (fun c => c ≠ '\n' ∧ c ≠ '\r'))

/-! ## The repository's response types (`types.go`, `client_test.go`)

Go struct fields of type `any` are modelled as `Option Json`: decoding
JSON `null` into an interface stores `nil`, and the program only ever
asks `!= nil` and "is it a string".  Decoding `null` into any other field
leaves the field's previous (zero) value; a missing field is simply never
assigned.  Unknown keys are ignored; keys match field tags exactly or
case-insensitively, as `encoding/json` matches them. -/

structure Image where
  id : Str
  topLeftX : Int
  topLeftY : Int
  bottomRightX : Int
  bottomRightY : Int
  imageBase64 : Str
  imageAnnotation : Option Json
deriving DecidableEq

def zeroImage : Image := ⟨[], 0, 0, 0, 0, [], none⟩

structure Page where
  index : Int
  markdown : Str
  images : List Image
deriving DecidableEq

def zeroPage : Page := ⟨0, [], []⟩

structure OCRResponse where
  pages : List Page
  documentAnnotation : Option Json
deriving DecidableEq

def zeroOCRResponse : OCRResponse := ⟨[], none⟩

structure ChatMessage where
  role : Str
  content : Option Json
deriving DecidableEq

def zeroChatMessage : ChatMessage := ⟨[], none⟩

structure ChatChoice where
  message : ChatMessage
deriving DecidableEq

def zeroChatChoice : ChatChoice := ⟨zeroChatMessage⟩

structure ChatResponse where
  choices : List ChatChoice
deriving DecidableEq

def zeroChatResponse : ChatResponse := ⟨[]⟩

/-- `ImageMetadata`; the Go field `Type` is `imgType` here because `Type`
is reserved in Lean. -/
structure ImageMetadata where
  description : Str
  imgType : Str
  structuredData : Option Json
deriving DecidableEq

def zeroImageMetadata : ImageMetadata := ⟨[], [], none⟩

def asciiLower (c : Char) : Char :=
  if 'A' ≤ c ∧ c ≤ 'Z' then Char.ofNat (c.toNat + 32) else c

/-- `encoding/json` key-to-field matching: exact tag match, else
case-insensitive. -/
def keyMatches (k tag : Str) : Bool :=
  k == tag || k.map asciiLower == tag.map asciiLower

/-- Decode a JSON value into a `string` field holding `cur`. -/
def unmarshalString (cur : Str) (v : Json) : Option Str :=
  match v with
  | .null => some cur
  | .str s => some s
  | _ => none

/-- Decode a JSON value into an `int` field holding `cur`. -/
def unmarshalInt (cur : Int) (v : Json) : Option Int :=
  match v with
  | .null => some cur
  | .num lit => parseIntLit lit
  | _ => none

/-- Decode a JSON value into an `any` field: `null` stores `nil`. -/
def anyField (v : Json) : Option Json :=
  match v with
  | .null => none
  | _ => some v

def unmarshalImageField (acc : Option Image) (kv : Str × Json) : Option Image :=
  match acc with
  | none => none
  | some img =>
    if keyMatches kv.1 "id".toList then
      (unmarshalString img.id kv.2).map (fun x => { img with id := x })
    else if keyMatches kv.1 "top_left_x".toList then
      (unmarshalInt img.topLeftX kv.2).map (fun x => { img with topLeftX := x })
    else if keyMatches kv.1 "top_left_y".toList then
      (unmarshalInt img.topLeftY kv.2).map (fun x => { img with topLeftY := x })
    else if keyMatches kv.1 "bottom_right_x".toList then
      (unmarshalInt img.bottomRightX kv.2).map (fun x => { img with bottomRightX := x })
    else if keyMatches kv.1 "bottom_right_y".toList then
      (unmarshalInt img.bottomRightY kv.2).map (fun x => { img with bottomRightY := x })
    else if keyMatches kv.1 "image_base64".toList then
      (unmarshalString img.imageBase64 kv.2).map (fun x => { img with imageBase64 := x })
    else if keyMatches kv.1 "image_annotation".toList then
      some { img with imageAnnotation := anyField kv.2 }
    else some img

def unmarshalImage (v : Json) : Option Image :=
  match v with
  | .null => some zeroImage
  | .obj fields => fields.foldl unmarshalImageField (some zeroImage)
  | _ => none

def unmarshalImages (cur : List Image) (v : Json) : Option (List Image) :=
  match v with
  | .null => some cur
  | .arr xs => xs.mapM unmarshalImage
  | _ => none

def unmarshalPageField (acc : Option Page) (kv : Str × Json) : Option Page :=
  match acc with
  | none => none
  | some pg =>
    if keyMatches kv.1 "index".toList then
      (unmarshalInt pg.index kv.2).map (fun x => { pg with index := x })
    else if keyMatches kv.1 "markdown".toList then
      (unmarshalString pg.markdown kv.2).map (fun x => { pg with markdown := x })
    else if keyMatches kv.1 "images".toList then
      (unmarshalImages pg.images kv.2).map (fun x => { pg with images := x })
    else some pg

def unmarshalPage (v : Json) : Option Page :=
  match v with
  | .null => some zeroPage
  | .obj fields => fields.foldl unmarshalPageField (some zeroPage)
  | _ => none

def unmarshalPages (cur : List Page) (v : Json) : Option (List Page) :=
  match v with
  | .null => some cur
  | .arr xs => xs.mapM unmarshalPage
  | _ => none

def unmarshalOCRField (acc : Option OCRResponse) (kv : Str × Json) : Option OCRResponse :=
  match acc with
  | none => none
  | some resp =>
    if keyMatches kv.1 "pages".toList then
      (unmarshalPages resp.pages kv.2).map (fun x => { resp with pages := x })
    else if keyMatches kv.1 "document_annotation".toList then
      some { resp with documentAnnotation := anyField kv.2 }
    else some resp

/-- Decode a parsed JSON value into `OCRResponse`, as
`json.Unmarshal(body, &ocrResp)` does: `null` leaves the zero value, an
object assigns matching fields, anything else is a type error. -/
def unmarshalOCRResponse (v : Json) : Option OCRResponse :=
  match v with
  | .null => some zeroOCRResponse
  | .obj fields => fields.foldl unmarshalOCRField (some zeroOCRResponse)
  | _ => none

/-- `json.Unmarshal` of a response body into `OCRResponse`. -/
def goUnmarshalOCRResponse (body : Str) : Option OCRResponse :=
  (goParseJson body).bind unmarshalOCRResponse

def unmarshalChatMessageField (acc : Option ChatMessage) (kv : Str × Json) :
    Option ChatMessage :=
  match acc with
  | none => none
  | some msg =>
    if keyMatches kv.1 "role".toList then
      (unmarshalString msg.role kv.2).map (fun x => { msg with role := x })
    else if keyMatches kv.1 "content".toList then
      some { msg with content := anyField kv.2 }
    else some msg

def unmarshalChatMessage (cur : ChatMessage) (v : Json) : Option ChatMessage :=
  match v with
  | .null => some cur
  | .obj fields => fields.foldl unmarshalChatMessageField (some cur)
  | _ => none

def unmarshalChatChoiceField (acc : Option ChatChoice) (kv : Str × Json) :
    Option ChatChoice :=
  match acc with
  | none => none
  | some ch =>
    if keyMatches kv.1 "message".toList then
      (unmarshalChatMessage ch.message kv.2).map (fun x => { ch with message := x })
    else some ch

def unmarshalChatChoice (v : Json) : Option ChatChoice :=
  match v with
  | .null => some zeroChatChoice
  | .obj fields => fields.foldl unmarshalChatChoiceField (some zeroChatChoice)
  | _ => none

def unmarshalChatChoices (cur : List ChatChoice) (v : Json) : Option (List ChatChoice) :=
  match v with
  | .null => some cur
  | .arr xs => xs.mapM unmarshalChatChoice
  | _ => none

def unmarshalChatResponseField (acc : Option ChatResponse) (kv : Str × Json) :
    Option ChatResponse :=
  match acc with
  | none => none
  | some resp =>
    if keyMatches kv.1 "choices".toList then
      (unmarshalChatChoices resp.choices kv.2).map (fun x => { resp with choices := x })
    else some resp

def unmarshalChatResponse (v : Json) : Option ChatResponse :=
  match v with
  | .null => some zeroChatResponse
  | .obj fields => fields.foldl unmarshalChatResponseField (some zeroChatResponse)
  | _ => none

/-- `json.Unmarshal` of a response body into `ChatResponse`. -/
def goUnmarshalChatResponse (body : Str) : Option ChatResponse :=
  (goParseJson body).bind unmarshalChatResponse

def unmarshalImageMetadataField (acc : Option ImageMetadata) (kv : Str × Json) :
    Option ImageMetadata :=
  match acc with
  | none => none
  | some md =>
    if keyMatches kv.1 "description".toList then
      (unmarshalString md.description kv.2).map (fun x => { md with description := x })
    else if keyMatches kv.1 "type".toList then
      (unmarshalString md.imgType kv.2).map (fun x => { md with imgType := x })
    else if keyMatches kv.1 "structured_data".toList then
      some { md with structuredData := anyField kv.2 }
    else some md

def unmarshalImageMetadata (v : Json) : Option ImageMetadata :=
  match v with
  | .null => some zeroImageMetadata
  | .obj fields => fields.foldl unmarshalImageMetadataField (some zeroImageMetadata)
  | _ => none

/-- `json.Unmarshal` of a metadata payload into `ImageMetadata`. -/
def goUnmarshalImageMetadata (s : Str) : Option ImageMetadata :=
  (goParseJson s).bind unmarshalImageMetadata

/-! ## The client (`client.go` and the vision-analysis client file)

The HTTP transport is the spec's external collaborator: a call produces a
status code and a raw body, which these models take as inputs.  Error
values carry their Go payloads; `ClientError.message` renders the
operator-facing text.  Where Go wraps an underlying error with `%w`, the
wrapped text (a library's own message) is beyond the model and the
rendered message is the prefix Go prints before it. -/

inductive ClientError where
  | apiError (status : Nat) (body : Str)
  | decodeError
  | noChoices
  | notString
  | metadataParse
deriving DecidableEq

/-- The error text as Go formats it (for wrapped errors, the prefix up to
the wrapped library error's own text). -/
def ClientError.message : ClientError → Str
  | .apiError status body =>
    "API error (status ".toList ++ (Nat.repr status).toList ++ "): ".toList ++ body
  | .decodeError => "unmarshaling response: ".toList
  | .noChoices => "no response choices returned".toList
  | .notString => "unexpected content type in response".toList
  | .metadataParse => "parsing metadata JSON: ".toList

/-- `doRequest`, from the transport's answer on: a non-200 status is an
API error carrying status and raw body; a 200 body is unmarshaled into
`OCRResponse`. -/
def doRequest (status : Nat) (body : Str) : Except ClientError OCRResponse :=
  if status ≠ 200 then .error (.apiError status body)
  else
    match goUnmarshalOCRResponse body with
    | none => .error .decodeError
    | some r => .ok r

/-- The data URL `ProcessDocument` builds from the document bytes it read:
the content type is the constant `application/pdf`. -/
def ProcessDocument_dataURL (docData : Bytes) : Str :=
  "data:application/pdf;base64,".toList ++ encodeB64 docData

/-- Modelled from the spec: the spec's "content-type hint (derived from
file extension/magic)" for a document path, over the formats the spec
names (PDF, PNG, JPEG, GIF, WebP).  No such derivation exists in the
source; this definition follows the spec's words, for comparison with
`ProcessDocument_dataURL`. -/
def specDeclaredMime (docPath : Str) : Str :=
  if ".pdf".toList.isSuffixOf docPath then "application/pdf".toList
  else if ".png".toList.isSuffixOf docPath then "image/png".toList
  else if ".jpg".toList.isSuffixOf docPath then "image/jpeg".toList
  else if ".jpeg".toList.isSuffixOf docPath then "image/jpeg".toList
  else if ".gif".toList.isSuffixOf docPath then "image/gif".toList
  else if ".webp".toList.isSuffixOf docPath then "image/webp".toList
  else "application/octet-stream".toList

/-- The MIME type a data URL declares: what stands between `data:` and
the first `;` or `,`. -/
def dataURLMime (u : Str) : Str :=
  (if goHasPrefix "data:".toList u then u.drop 5 else []).takeWhile
    (fun c => c ≠ ';' ∧ c ≠ ',')

/-- The payload of a data URL: what follows the first comma. -/
def dataURLPayload (u : Str) : Str :=
  (u.dropWhile (fun c => c ≠ ',')).drop 1

def tripleBacktick : Str := "```".toList

/-- Everything after the first newline, when there is one (the model of
`strings.Index(s, "\n")` followed by the slice `s[idx+1:]`). -/
def dropThroughNl : Str → Option Str
  | [] => none
  | c :: cs => if c = '\n' then some cs else dropThroughNl cs

/-- Everything before the last occurrence of three backticks, when there
is one (the model of `strings.LastIndex(s, "```")` followed by the slice
`s[:idx]`). -/
def cutFromLastTriple : Str → Option Str
  | [] => none
  | c :: cs =>
    match cutFromLastTriple cs with
    | some t => some (c :: t)
    | none => if tripleBacktick.isPrefixOf (c :: cs) then some [] else none

/-- The fenced-code-block stripping of `AnalyzeImage`: trim, and when the
text starts with three backticks, drop through the first newline, cut
from the last three backticks, and trim again. -/
def stripFence (content : Str) : Str :=
  let jsonStr := goTrimSpace content
  if goHasPrefix tripleBacktick jsonStr then
    let j1 := (dropThroughNl jsonStr).getD jsonStr
    let j2 := (cutFromLastTriple j1).getD j1
    goTrimSpace j2
  else jsonStr

/-- `AnalyzeImage` from the decoded chat response on: require a choice,
require its message content to be a string, strip a code fence, parse the
metadata. -/
def analyzeChatResponse (chatResp : ChatResponse) : Except ClientError ImageMetadata :=
  match chatResp.choices with
  | [] => .error .noChoices
  | choice0 :: _ =>
    match choice0.message.content with
    | some (.str contentStr) =>
      let jsonStr := stripFence contentStr
      (match goUnmarshalImageMetadata jsonStr with
       | none => .error .metadataParse
       | some md => .ok md)
    | _ => .error .notString

/-- `AnalyzeImage` from the transport's answer on. -/
def AnalyzeImage (status : Nat) (body : Str) : Except ClientError ImageMetadata :=
  if status ≠ 200 then .error (.apiError status body)
  else
    match goUnmarshalChatResponse body with
    | none => .error .decodeError
    | some chatResp => analyzeChatResponse chatResp

/-! ## The output pipeline (`main.go`)

Filesystem effects are modelled as an explicit event list; per-image
error reports (printed to stderr) as a message list.  A write itself
always succeeds — the spec's filesystem collaborator — so the failures
that remain are the ones the code produces: base64 decode failures and
annotation JSON failures.  Go error strings that wrap a library error
(`%w`) are modelled up to the wrapping prefix. -/

inductive FileData where
  | text (s : Str)
  | bin (bs : Bytes)
deriving DecidableEq

inductive FSEvent where
  | mkdir (path : Str)
  | write (path : Str) (data : FileData)
deriving DecidableEq

/-- `filepath.Join` for a clean, non-empty directory and a relative name,
which is the only way the program uses it. -/
def pathJoin (dir name : Str) : Str := dir ++ '/' :: name

/-- `extractText`: concatenate each page's markdown followed by a blank
line, counting images along the way. -/
def extractText (resp : OCRResponse) : Str × Nat :=
  resp.pages.foldl
    (fun acc page => (acc.1 ++ page.markdown ++ "\n\n".toList, acc.2 + page.images.length))
    ([], 0)

/-- `countImages`. -/
def countImages (resp : OCRResponse) : Nat :=
  resp.pages.foldl (fun n p => n + p.images.length) 0

/-- `imageExtension`: substring matching on the encoded string. -/
def imageExtension (dataURL : Str) : Str :=
  if containsSub "image/jpeg".toList dataURL then ".jpg".toList
  else if containsSub "image/gif".toList dataURL then ".gif".toList
  else if containsSub "image/webp".toList dataURL then ".webp".toList
  else ".png".toList

/-- Everything after the first comma, when there is one (the model of
`strings.Index(s, ",")` followed by the slice `s[idx+1:]`). -/
def dropThroughComma : Str → Option Str
  | [] => none
  | c :: cs => if c = ',' then some cs else dropThroughComma cs

/-- `saveImage`: strip a data-URL prefix at the first comma, base64
decode (a failure is the image-decode error), infer the extension from
the original string, and name the file `page_<pageIndex>_img_<imgIndex>`.
Returns the path and the bytes the write event will carry. -/
def saveImage (img : Image) (pageIndex : Int) (imgIndex : Nat) (imagesDir : Str) :
    Except Str (Str × Bytes) :=
  let b64Data := (dropThroughComma img.imageBase64).getD img.imageBase64
  match decodeB64 b64Data with
  | none => .error "decoding image: ".toList
  | some imgData =>
    let ext := imageExtension img.imageBase64
    let imgPath := pathJoin imagesDir
      ("page_".toList ++ (toString pageIndex).toList ++ "_img_".toList ++
        (Nat.repr imgIndex).toList ++ ext)
    .ok (imgPath, imgData)

/-- `saveAnnotation`: a string annotation must itself parse as JSON and
is re-marshaled pretty-printed; any other value is marshaled directly
(marshaling a JSON-derived value cannot fail). -/
def saveAnnotation ( annotation : Json) (path : Str) : Except Str FSEvent :=
  match annotation with
  | .str s =>
    (match goParseJson s with
     | none => .error "parsing annotation JSON string: ".toList
     | some parsed => .ok (.write path (.text (goMarshalIndent parsed))))
  | v => .ok (.write path (.text (goMarshalIndent v)))

/-- `filepath.Ext`: the suffix of the final path element from its last
dot, or empty when it has none. -/
def filepathExt (p : Str) : Str :=
  let revLast := p.reverse.takeWhile (fun c => c ≠ '/')
  let upto := revLast.takeWhile (fun c => c ≠ '.')
  if upto.length = revLast.length then [] else '.' :: upto.reverse

/-- `strings.TrimSuffix`. -/
def goTrimSuffix (s suffix : Str) : Str :=
  if suffix.isSuffixOf s then s.take (s.length - suffix.length) else s

/-- `saveAnnotationMetadata`: the annotation goes beside the image, with
the image's extension replaced by `.json`. -/
def saveAnnotationMetadata ( annotation : Json) (imgPath : Str) : Except Str FSEvent :=
  saveAnnotation annotation (goTrimSuffix imgPath (filepathExt imgPath) ++ ".json".toList)

/-- One iteration of the image loop of `extractImages`: on a save failure
report the error and write nothing; on success write the image and, when
metadata extraction is on and the image carries an annotation, write its
metadata too, a metadata failure being reported but not fatal. -/
def processImage (extractMetadata : Bool) (imagesDir : Str) (pageIndex : Int)
    (imgIndex : Nat) (img : Image) : List FSEvent × List Str :=
  match saveImage img pageIndex imgIndex imagesDir with
  | .error e => ([], ["Error: ".toList ++ e ++ ['\n']])
  | .ok (imgPath, data) =>
    let ev := [FSEvent.write imgPath (.bin data)]
    if extractMetadata then
      match img.imageAnnotation with
      | some ann =>
        (match saveAnnotationMetadata ann imgPath with
         | .error e =>
           (ev, ["Error saving metadata for ".toList ++ imgPath ++ ": ".toList ++ e ++ ['\n']])
         | .ok mev => (ev ++ [mev], []))
      | none => (ev, [])
    else (ev, [])

/-- The inner image loop of `extractImages` over one page's images,
threading the global running index. -/
def processImages (extractMetadata : Bool) (imagesDir : Str) (pageIndex : Int) :
    List Image → Nat → List FSEvent × List Str × Nat
  | [], imgIndex => ([], [], imgIndex)
  | img :: rest, imgIndex =>
    let r1 := processImage extractMetadata imagesDir pageIndex imgIndex img
    let r2 := processImages extractMetadata imagesDir pageIndex rest (imgIndex + 1)
    (r1.1 ++ r2.1, r1.2 ++ r2.2.1, r2.2.2)

/-- The page loop of `extractImages`: the running index carries across
page boundaries. -/
def processPages (extractMetadata : Bool) (imagesDir : Str) :
    List Page → Nat → List FSEvent × List Str × Nat
  | [], imgIndex => ([], [], imgIndex)
  | page :: rest, imgIndex =>
    let r1 := processImages extractMetadata imagesDir page.index page.images imgIndex
    let r2 := processPages extractMetadata imagesDir rest r1.2.2
    (r1.1 ++ r2.1, r1.2.1 ++ r2.2.1, r2.2.2)

/-- `extractImages`: create the images directory, then process every
page's images with the global running index starting at zero.  It fails
only if the directory cannot be created (a collaborator failure outside
the model), so here it yields its events and reported errors. -/
def extractImages (resp : OCRResponse) (outDir : Str) (extractMetadata : Bool) :
    List FSEvent × List Str :=
  let imagesDir := pathJoin outDir "images".toList
  let r := processPages extractMetadata imagesDir resp.pages 0
  (FSEvent.mkdir imagesDir :: r.1, r.2.1)

/-- The part of `run` from the decoded OCR response on: write the
markdown, then handle the document annotation (a failure there is fatal),
then — only when the response holds at least one image — extract images.
Yields the filesystem events in order, the reported per-image errors, and
the outcome (`ok` carries the text path printed to stdout). -/
def runOutput (resp : OCRResponse) (outDir baseName : Str) (extractMetadata : Bool) :
    List FSEvent × List Str × Except Str Str :=
  let te := extractText resp
  let textPath := pathJoin outDir (baseName ++ ".md".toList)
  let mdEv := FSEvent.write textPath (.text te.1)
  let cont := fun (evs : List FSEvent) =>
    if te.2 > 0 then
      let r := extractImages resp outDir extractMetadata
      (evs ++ r.1, r.2, Except.ok textPath)
    else (evs, ([] : List Str), Except.ok textPath)
  match resp.documentAnnotation with
  | some ann =>
    let annotationPath := pathJoin outDir (baseName ++ ".annotation.json".toList)
    (match saveAnnotation ann annotationPath with
     | .error e => ([mdEv], [], .error ("writing document annotation: ".toList ++ e))
     | .ok annEv => cont [mdEv, annEv])
  | none => cont [mdEv]

/-! ## General lemmas -/

/-- `containsSub` decides the sublist-infix relation. -/
theorem containsSub_iff (pat s : Str) : containsSub pat s = true ↔ pat <:+: s := by
  induction s with
  | nil =>
    simp [containsSub, List.isEmpty_iff]
  | cons c cs ih =>
    simp [containsSub, List.infix_cons_iff, ih, List.isPrefixOf_iff_prefix]

/-- An infix of the first part is an infix of an append. -/
theorem containsSub_append_left {pat l1 : Str} (l2 : Str) (h : containsSub pat l1 = true) :
    containsSub pat (l1 ++ l2) = true := by
  rw [containsSub_iff] at h ⊢
  exact h.trans ⟨[], l2, by simp⟩

/-! ## C8: image extension inference -/

/-- C8, counterexample: `imageExtension` substring-matches, so the
payload `image/jpegAB` — valid base64, carrying no data-URL prefix —
yields `.jpg`, where the claim's final clause says every prefixless
payload yields `.png`. -/
theorem C8_counterexample :
    imageExtension "image/jpegAB".toList = ".jpg".toList ∧
    goHasPrefix "data:".toList "image/jpegAB".toList = false ∧
    decodeB64 "image/jpegAB".toList ≠ none ∧
    ".jpg".toList ≠ ".png".toList := by
  refine ⟨by decide, by decide, by decide, by decide⟩

/-- C8, amended: the extension is decided by ordered substring matching
on the original encoded string — `.jpg` on `image/jpeg`, else `.gif` on
`image/gif`, else `.webp` on `image/webp`, else `.png`; in particular a
`data:image/jpeg;base64,` prefix yields `.jpg`, and a payload containing
none of the three MIME substrings (rather than every prefixless payload)
yields `.png`. -/
theorem C8_imageExtension_amended (s : Str) :
    (containsSub "image/jpeg".toList s = true → imageExtension s = ".jpg".toList) ∧
    (containsSub "image/jpeg".toList s = false → containsSub "image/gif".toList s = true →
      imageExtension s = ".gif".toList) ∧
    (containsSub "image/jpeg".toList s = false → containsSub "image/gif".toList s = false →
      containsSub "image/webp".toList s = true → imageExtension s = ".webp".toList) ∧
    (containsSub "image/jpeg".toList s = false → containsSub "image/gif".toList s = false →
      containsSub "image/webp".toList s = false → imageExtension s = ".png".toList) ∧
    imageExtension ("data:image/jpeg;base64,".toList ++ s) = ".jpg".toList := by
  refine ⟨fun h1 => by simp_all [imageExtension],
    fun h1 h2 => by simp_all [imageExtension],
    fun h1 h2 h3 => by simp_all [imageExtension],
    fun h1 h2 h3 => by simp_all [imageExtension], ?_⟩
  have hj : containsSub "image/jpeg".toList ("data:image/jpeg;base64,".toList ++ s) = true := by
    have h0 : containsSub "image/jpeg".toList "data:image/jpeg;base64,".toList = true := by
      decide
    exact @containsSub_append_left "image/jpeg".toList
      "data:image/jpeg;base64,".toList s h0
  simp_all [imageExtension]

/-- C8, witness: the amended theorem applied to a payload containing
`image/gif` and not `image/jpeg`. -/
theorem C8_witness : imageExtension "data:image/gif;base64,AA==".toList = ".gif".toList :=
  (C8_imageExtension_amended "data:image/gif;base64,AA==".toList).2.1 (by decide) (by decide)

/-! ## Base64 roundtrip -/

theorem b64Val_b64Char {v : Nat} (h : v < 64) : b64Val (b64Char v) = some v := by
  revert v h
  decide

theorem b64Char_ne_nlcr {v : Nat} (h : v < 64) :
    b64Char v ≠ '\n' ∧ b64Char v ≠ '\r' := by
  revert v h
  decide

theorem b64Char_ne_eq {v : Nat} (h : v < 64) : b64Char v ≠ '=' := by
  revert v h
  decide

/-- Encoded output holds only alphabet characters and padding, never a
newline or carriage return. -/
theorem encodeB64_mem_ne_nlcr :
    ∀ bs : Bytes, (∀ b ∈ bs, b < 256) → ∀ c ∈ encodeB64 bs, c ≠ '\n' ∧ c ≠ '\r'
  | [], _ => by simp [encodeB64]
  | [b1], h => by
    have h1 : b1 < 256 := h b1 (by simp)
    simp only [encodeB64, List.mem_cons, List.not_mem_nil, or_false]
    rintro c (rfl | rfl | rfl | rfl)
    · exact b64Char_ne_nlcr (by omega)
    · exact b64Char_ne_nlcr (by omega)
    · decide
    · decide
  | [b1, b2], h => by
    have h1 : b1 < 256 := h b1 (by simp)
    have h2 : b2 < 256 := h b2 (by simp)
    simp only [encodeB64, List.mem_cons, List.not_mem_nil, or_false]
    rintro c (rfl | rfl | rfl | rfl)
    · exact b64Char_ne_nlcr (by omega)
    · exact b64Char_ne_nlcr (by omega)
    · exact b64Char_ne_nlcr (by omega)
    · decide
  | b1 :: b2 :: b3 :: rest, h => by
    have h1 : b1 < 256 := h b1 (by simp)
    have h2 : b2 < 256 := h b2 (by simp)
    have h3 : b3 < 256 := h b3 (by simp)
    have ih := encodeB64_mem_ne_nlcr rest (fun b hb => h b (by simp [hb]))
    simp only [encodeB64, List.mem_cons]
    rintro c (rfl | rfl | rfl | rfl | hc)
    · exact b64Char_ne_nlcr (by omega)
    · exact b64Char_ne_nlcr (by omega)
    · exact b64Char_ne_nlcr (by omega)
    · exact b64Char_ne_nlcr (by omega)
    · exact ih c hc

theorem decodeB64Quanta_encodeB64 :
    ∀ bs : Bytes, (∀ b ∈ bs, b < 256) → decodeB64Quanta (encodeB64 bs) = some bs
  | [], _ => by simp [encodeB64, decodeB64Quanta]
  | [b1], h => by
    have h1 : b1 < 256 := h b1 (by simp)
    have e1 := @b64Val_b64Char (b1 / 4) (by omega)
    have e2 := @b64Val_b64Char (b1 % 4 * 16) (by omega)
    simp only [encodeB64, decodeB64Quanta, e1, e2, Option.bind_eq_bind, Option.some_bind]
    simp only [if_pos rfl, and_self, if_true]
    simp
    omega
  | [b1, b2], h => by
    have h1 : b1 < 256 := h b1 (by simp)
    have h2 : b2 < 256 := h b2 (by simp)
    have e1 := @b64Val_b64Char (b1 / 4) (by omega)
    have e2 := @b64Val_b64Char (b1 % 4 * 16 + b2 / 16) (by omega)
    have e3 := @b64Val_b64Char (b2 % 16 * 4) (by omega)
    have ne3 := @b64Char_ne_eq (b2 % 16 * 4) (by omega)
    simp only [encodeB64, decodeB64Quanta, e1, e2, e3, Option.bind_eq_bind, Option.some_bind,
      if_neg ne3, if_pos rfl, if_true]
    simp
    constructor
    · omega
    · omega
  | b1 :: b2 :: b3 :: rest, h => by
    have h1 : b1 < 256 := h b1 (by simp)
    have h2 : b2 < 256 := h b2 (by simp)
    have h3 : b3 < 256 := h b3 (by simp)
    have ih := decodeB64Quanta_encodeB64 rest (fun b hb => h b (by simp [hb]))
    have e1 := @b64Val_b64Char (b1 / 4) (by omega)
    have e2 := @b64Val_b64Char (b1 % 4 * 16 + b2 / 16) (by omega)
    have e3 := @b64Val_b64Char (b2 % 16 * 4 + b3 / 64) (by omega)
    have e4 := @b64Val_b64Char (b3 % 64) (by omega)
    have ne3 := @b64Char_ne_eq (b2 % 16 * 4 + b3 / 64) (by omega)
    have ne4 := @b64Char_ne_eq (b3 % 64) (by omega)
    simp only [encodeB64, decodeB64Quanta, e1, e2, e3, e4, Option.bind_eq_bind, Option.some_bind,
      if_neg ne3, if_neg ne4, ih, Option.some_bind]
    simp
    refine ⟨by omega, by omega, by omega⟩

/-- Decoding inverts encoding. -/
theorem decodeB64_encodeB64 (bs : Bytes) (h : ∀ b ∈ bs, b < 256) :
    decodeB64 (encodeB64 bs) = some bs := by
  have hf : (encodeB64 bs).filter (fun c => c ≠ '\n' ∧ c ≠ '\r') = encodeB64 bs := by
    rw [List.filter_eq_self]
    intro c hc
    have := encodeB64_mem_ne_nlcr bs h c hc
    simp [this.1, this.2]
  unfold decodeB64
  rw [hf]
  exact decodeB64Quanta_encodeB64 bs h

/-! ## C3: the document data URL -/

/-- C3, counterexample: for a document at a path with a raster-image
extension, the data URL `ProcessDocument` builds declares
`application/pdf`, not the MIME type the spec derives from the file
extension. -/
theorem C3_counterexample :
    dataURLMime (ProcessDocument_dataURL [137, 80, 78, 71]) = "application/pdf".toList ∧
    specDeclaredMime "scan.png".toList = "image/png".toList ∧
    ("application/pdf".toList : Str) ≠ "image/png".toList := by
  refine ⟨by decide, by decide, by decide⟩

/-- C3, amended: the data URL's content type is the constant
`application/pdf`, whatever the document's extension or kind; its payload
is the standard base64 encoding of the document bytes, which decodes back
to exactly those bytes. -/
theorem C3_dataURL_amended (docData : Bytes) (h : ∀ b ∈ docData, b < 256) :
    ProcessDocument_dataURL docData =
      "data:application/pdf;base64,".toList ++ encodeB64 docData ∧
    dataURLMime (ProcessDocument_dataURL docData) = "application/pdf".toList ∧
    decodeB64 (dataURLPayload (ProcessDocument_dataURL docData)) = some docData := by
  refine ⟨rfl, ?_, ?_⟩
  · simp [dataURLMime, ProcessDocument_dataURL, goHasPrefix, List.isPrefixOf, List.takeWhile]
  · have hp : dataURLPayload (ProcessDocument_dataURL docData) = encodeB64 docData := by
      simp [dataURLPayload, ProcessDocument_dataURL, List.dropWhile]
    rw [hp]
    exact decodeB64_encodeB64 docData h

/-- C3, witness: the amended theorem at a three-byte document. -/
theorem C3_witness :
    dataURLMime (ProcessDocument_dataURL [1, 2, 3]) = "application/pdf".toList ∧
    decodeB64 (dataURLPayload (ProcessDocument_dataURL [1, 2, 3])) = some [1, 2, 3] :=
  ⟨(C3_dataURL_amended [1, 2, 3] (by decide)).2.1, (C3_dataURL_amended [1, 2, 3] (by decide)).2.2⟩

deriving instance DecidableEq for Except

/-! ## C4: decoding the 200 body -/

/-- C4, counterexample: a 200 body in which the required `pages` field is
missing — the empty object — does not produce a Decode error;
`json.Unmarshal` leaves the zero value and `doRequest` returns a result
with no pages. -/
theorem C4_counterexample :
    doRequest 200 "\x7b\x7d".toList = .ok zeroOCRResponse ∧
    zeroOCRResponse.pages = [] := by
  refine ⟨by decide, rfl⟩

/-- C4, amended: on a 200 body the request returns a Decode error exactly
when the body fails to unmarshal as `OCRResponse` — it is not valid JSON,
or a present field has the wrong type, as `pages: 5` does — and returns
the decoded result otherwise; a body merely missing the `pages` field
unmarshals successfully to a result with no pages. -/
theorem C4_decode_amended (body : Str) :
    ((∃ r, goUnmarshalOCRResponse body = some r ∧ doRequest 200 body = .ok r) ∨
      (goUnmarshalOCRResponse body = none ∧ doRequest 200 body = .error .decodeError)) ∧
    goUnmarshalOCRResponse "\x7b\"pages\":5\x7d".toList = none ∧
    goUnmarshalOCRResponse "not json".toList = none ∧
    goUnmarshalOCRResponse "\x7b\x7d".toList = some zeroOCRResponse := by
  refine ⟨?_, by decide, by decide, by decide⟩
  cases h : goUnmarshalOCRResponse body with
  | none => exact Or.inr ⟨rfl, by simp [doRequest, h]⟩
  | some r => exact Or.inl ⟨r, rfl, by simp [doRequest, h]⟩

/-! ## C5: the API error on a non-200 status -/

/-- C5: a non-200 status makes both the OCR request and the
vision-analysis request fail with an API error and no result, and the
error's message contains the decimal status code and the raw body
verbatim. -/
theorem C5_api_error (status : Nat) (body : Str) (h : status ≠ 200) :
    doRequest status body = .error (.apiError status body) ∧
    AnalyzeImage status body = .error (.apiError status body) ∧
    (∃ u v, (ClientError.apiError status body).message = u ++ (Nat.repr status).toList ++ v) ∧
    (∃ u v, (ClientError.apiError status body).message = u ++ body ++ v) := by
  refine ⟨by simp [doRequest, h], by simp [AnalyzeImage, h], ?_, ?_⟩
  · exact ⟨"API error (status ".toList, "): ".toList ++ body, by
      simp [ClientError.message]⟩
  · exact ⟨"API error (status ".toList ++ (Nat.repr status).toList ++ "): ".toList, [], by
      simp [ClientError.message]⟩

/-- C5, witness: the theorem at status 401 with the repository's own test
body; the message contains `401` and the body verbatim. -/
theorem C5_witness :
    doRequest 401 "\x7b\"error\": \"invalid api key\"\x7d".toList =
      .error (.apiError 401 "\x7b\"error\": \"invalid api key\"\x7d".toList) ∧
    AnalyzeImage 401 "\x7b\"error\": \"invalid api key\"\x7d".toList =
      .error (.apiError 401 "\x7b\"error\": \"invalid api key\"\x7d".toList) :=
  ⟨(C5_api_error 401 "\x7b\"error\": \"invalid api key\"\x7d".toList (by decide)).1,
   (C5_api_error 401 "\x7b\"error\": \"invalid api key\"\x7d".toList (by decide)).2.1⟩

/-! ## C1: the markdown file's content -/

/-- Pages' markdown joined by one blank line between consecutive pages,
with nothing after the last — the claim's reading. -/
def blankLineJoined : List Str → Str
  | [] => []
  | [m] => m
  | m :: rest => m ++ "\n\n".toList ++ blankLineJoined rest

theorem extractText_fst_go (pages : List Page) :
    ∀ acc : Str × Nat,
      (pages.foldl
        (fun acc page =>
          (acc.1 ++ page.markdown ++ "\n\n".toList, acc.2 + page.images.length)) acc).1 =
      acc.1 ++ (pages.map (fun p => p.markdown ++ "\n\n".toList)).flatten := by
  induction pages with
  | nil => intro acc; simp
  | cons p rest ih =>
    intro acc
    simp only [List.foldl_cons, List.map_cons, List.flatten_cons]
    rw [ih]
    simp

/-- The text `extractText` builds: each page's markdown followed by a
blank line, the last page included. -/
theorem extractText_fst (resp : OCRResponse) :
    (extractText resp).1 = (resp.pages.map (fun p => p.markdown ++ "\n\n".toList)).flatten := by
  rw [extractText, extractText_fst_go]
  simp

theorem flatten_append_eq_blankLineJoined :
    ∀ ms : List Str, ms ≠ [] →
      (ms.map (fun m => m ++ "\n\n".toList)).flatten = blankLineJoined ms ++ "\n\n".toList := by
  intro ms
  induction ms with
  | nil => intro h; exact absurd rfl h
  | cons m rest ih =>
    intro _
    cases rest with
    | nil => simp [blankLineJoined]
    | cons m2 rest2 =>
      rw [List.map_cons, List.flatten_cons, ih (by simp)]
      show _ = (m ++ "\n\n".toList ++ blankLineJoined (m2 :: rest2)) ++ "\n\n".toList
      simp

/-- Whatever branches follow, the first filesystem event of the run's
output phase is the markdown write. -/
theorem runOutput_head (resp : OCRResponse) (outDir baseName : Str) (m : Bool) :
    (runOutput resp outDir baseName m).1.head? =
      some (.write (pathJoin outDir (baseName ++ ".md".toList))
        (.text (extractText resp).1)) := by
  unfold runOutput
  cases resp.documentAnnotation with
  | none =>
    by_cases h : (extractText resp).2 > 0 <;> simp [h]
  | some ann =>
    dsimp only
    split
    · simp
    · by_cases h2 : (extractText resp).2 > 0 <;> simp [h2]

/-- C1, counterexample: a one-page response with markdown `a` writes
`a` followed by a blank line, not `a` alone — the separator also follows
the final page. -/
theorem C1_counterexample :
    (runOutput ⟨[⟨0, "a".toList, []⟩], none⟩ "out".toList "doc".toList false).1 =
      [.write "out/doc.md".toList (.text "a\n\n".toList)] ∧
    ("a\n\n".toList : Str) ≠ "a".toList := by
  refine ⟨by decide, by decide⟩

/-- C1, amended: the content written to `<basename>.md` is the pages'
markdown in page order joined by a blank line between consecutive pages
and followed by one final blank-line separator after the last page. -/
theorem C1_markdown_amended (resp : OCRResponse) (outDir baseName : Str) (m : Bool)
    (h : resp.pages ≠ []) :
    (runOutput resp outDir baseName m).1.head? =
      some (.write (pathJoin outDir (baseName ++ ".md".toList))
        (.text (blankLineJoined (resp.pages.map Page.markdown) ++ "\n\n".toList))) := by
  rw [runOutput_head]
  have : (extractText resp).1 =
      blankLineJoined (resp.pages.map Page.markdown) ++ "\n\n".toList := by
    rw [extractText_fst]
    have hm : resp.pages.map (fun p => p.markdown ++ "\n\n".toList) =
        (resp.pages.map Page.markdown).map (fun m => m ++ "\n\n".toList) := by
      simp [List.map_map]
    rw [hm, flatten_append_eq_blankLineJoined]
    simp [h]
  rw [this]

/-- C1, witness: the amended theorem at a two-page response. -/
theorem C1_witness :
    (runOutput ⟨[⟨0, "p0".toList, []⟩, ⟨1, "p1".toList, []⟩], none⟩
        "out".toList "doc".toList false).1.head? =
      some (.write "out/doc.md".toList (.text "p0\n\np1\n\n".toList)) := by
  have h := C1_markdown_amended ⟨[⟨0, "p0".toList, []⟩, ⟨1, "p1".toList, []⟩], none⟩
    "out".toList "doc".toList false (by decide)
  exact h.trans (by decide)

/-! ## C9: a failing document annotation is fatal, after the markdown -/

/-- C9: when the response carries a string document annotation that is
not valid JSON, the run's output phase terminates with the fatal
annotation error, after having written the markdown file in full and
before creating or writing anything else — the markdown write strictly
precedes annotation handling, which strictly precedes image
extraction. -/
theorem C9_annotation_failure (resp : OCRResponse) (outDir baseName : Str) (m : Bool)
    (s : Str) (hann : resp.documentAnnotation = some (.str s))
    (hbad : goParseJson s = none) :
    runOutput resp outDir baseName m =
      ([.write (pathJoin outDir (baseName ++ ".md".toList)) (.text (extractText resp).1)],
        [],
        .error ("writing document annotation: ".toList ++
          "parsing annotation JSON string: ".toList)) := by
  unfold runOutput
  rw [hann]
  dsimp only
  have hsave : saveAnnotation (.str s)
      (pathJoin outDir (baseName ++ ".annotation.json".toList)) =
      .error "parsing annotation JSON string: ".toList := by
    simp [ saveAnnotation, hbad]
  split
  · rename_i e heq
    rw [hsave] at heq
    cases heq
    rfl
  · rename_i annEv heq
    rw [hsave] at heq
    cases heq

/-- C9, witness: the theorem at a response whose annotation is the
malformed string from the spec's own example. -/
theorem C9_witness :
    runOutput ⟨[⟨0, "md".toList, []⟩], some (.str "\x7bnot json".toList)⟩
        "out".toList "doc".toList false =
      ([.write "out/doc.md".toList (.text "md\n\n".toList)], [],
        .error ("writing document annotation: ".toList ++
          "parsing annotation JSON string: ".toList)) := by
  have h := C9_annotation_failure ⟨[⟨0, "md".toList, []⟩], some (.str "\x7bnot json".toList)⟩
    "out".toList "doc".toList false "\x7bnot json".toList rfl (by decide)
  exact h.trans (by decide)

/-! ## C10: no images, no images directory -/

theorem extractText_snd_go (pages : List Page) :
    ∀ acc : Str × Nat,
      (pages.foldl
        (fun acc page =>
          (acc.1 ++ page.markdown ++ "\n\n".toList, acc.2 + page.images.length)) acc).2 =
      acc.2 + (pages.map (fun p => p.images.length)).sum := by
  induction pages with
  | nil => intro acc; simp
  | cons p rest ih =>
    intro acc
    simp only [List.foldl_cons, List.map_cons, List.sum_cons]
    rw [ih]
    omega

theorem countImages_go (pages : List Page) :
    ∀ n : Nat, pages.foldl (fun n p => n + p.images.length) n =
      n + (pages.map (fun p => p.images.length)).sum := by
  induction pages with
  | nil => intro n; simp
  | cons p rest ih =>
    intro n
    simp only [List.foldl_cons, List.map_cons, List.sum_cons]
    rw [ih]
    omega

/-- The image count `extractText` accumulates is `countImages`. -/
theorem extractText_snd (resp : OCRResponse) :
    (extractText resp).2 = countImages resp := by
  rw [extractText, countImages, extractText_snd_go, countImages_go]

/-- The document annotation, when present, normalizes: it is either not a
string, or a string holding valid JSON. -/
def docAnnOk (resp : OCRResponse) : Bool :=
  match resp.documentAnnotation with
  | some (.str s) => (goParseJson s).isSome
  | _ => true

theorem saveAnnotation_ok (ann : Json) (path : Str)
    (h : ∀ s, ann = .str s → (goParseJson s).isSome = true) :
    ∃ d, saveAnnotation ann path = .ok (.write path (.text d)) := by
  cases ann with
  | str s =>
    obtain ⟨parsed, hp⟩ := Option.isSome_iff_exists.mp (h s rfl)
    exact ⟨goMarshalIndent parsed, by simp [ saveAnnotation, hp]⟩
  | null => exact ⟨_, rfl⟩
  | bool b => exact ⟨_, rfl⟩
  | num lit => exact ⟨_, rfl⟩
  | arr xs => exact ⟨_, rfl⟩
  | obj fs => exact ⟨_, rfl⟩

/-- C10: a response with zero images produces exactly the markdown write
and — when a document annotation is present — the annotation write: no
`images/` directory is created and no other file is touched. -/
theorem C10_no_images (resp : OCRResponse) (outDir baseName : Str) (m : Bool)
    (h0 : countImages resp = 0) (hann : docAnnOk resp = true) :
    ( resp.documentAnnotation = none →
      runOutput resp outDir baseName m =
        ([.write (pathJoin outDir (baseName ++ ".md".toList)) (.text (extractText resp).1)],
          [], .ok (pathJoin outDir (baseName ++ ".md".toList)))) ∧
    (∀ ann, resp.documentAnnotation = some ann →
      ∃ d, runOutput resp outDir baseName m =
        ([.write (pathJoin outDir (baseName ++ ".md".toList)) (.text (extractText resp).1),
          .write (pathJoin outDir (baseName ++ ".annotation.json".toList)) (.text d)],
          [], .ok (pathJoin outDir (baseName ++ ".md".toList)))) := by
  have hte : (extractText resp).2 = 0 := by rw [extractText_snd]; exact h0
  constructor
  · intro hnone
    unfold runOutput
    rw [hnone]
    simp [hte]
  · intro ann hsome
    have hok : ∀ s, ann = .str s → (goParseJson s).isSome = true := by
      intro s hs
      rw [docAnnOk, hsome, hs] at hann
      exact hann
    obtain ⟨d, hd⟩ := saveAnnotation_ok ann
      (pathJoin outDir (baseName ++ ".annotation.json".toList)) hok
    refine ⟨d, ?_⟩
    unfold runOutput
    rw [hsome]
    dsimp only
    rw [hd]
    simp [hte]

/-- C10, witness: a one-page, zero-image response with a structured
document annotation writes exactly the markdown file and the annotation
file. -/
theorem C10_witness :
    ∃ d, runOutput ⟨[⟨0, "md".toList, []⟩], some (.obj [("a".toList, .num "1".toList)])⟩
        "out".toList "doc".toList false =
      ([.write "out/doc.md".toList (.text "md\n\n".toList),
        .write "out/doc.annotation.json".toList (.text d)],
        [], .ok "out/doc.md".toList) := by
  obtain ⟨d, hd⟩ := (C10_no_images ⟨[⟨0, "md".toList, []⟩],
      some (.obj [("a".toList, .num "1".toList)])⟩
    "out".toList "doc".toList false (by decide) (by decide)).2
    (.obj [("a".toList, .num "1".toList)]) rfl
  exact ⟨d, hd⟩

/-! ## The flattened view of image extraction (for C2 and C6) -/

/-- The document's images in traversal order — page order, then in-page
order — each tagged with its page's `index` field. -/
def allImages (resp : OCRResponse) : List (Int × Image) :=
  resp.pages.flatMap (fun p => p.images.map (fun img => (p.index, img)))

/-- Whether an image's payload base64-decodes (after stripping a
data-URL prefix at the first comma, as `saveImage` strips it). -/
def imageDecodes (img : Image) : Bool :=
  (decodeB64 ((dropThroughComma img.imageBase64).getD img.imageBase64)).isSome

/-- An image-file write: images are the only binary payloads. -/
def isBinWrite : FSEvent → Bool
  | .write _ (.bin _) => true
  | _ => false

/-- The image loop of `extractImages` over the flattened traversal; the
nested page/image loops compute exactly this. -/
def processFlat (m : Bool) (dir : Str) : List (Int × Image) → Nat → List FSEvent × List Str × Nat
  | [], n => ([], [], n)
  | pi :: rest, n =>
    let r1 := processImage m dir pi.1 n pi.2
    let r2 := processFlat m dir rest (n + 1)
    (r1.1 ++ r2.1, r1.2 ++ r2.2.1, r2.2.2)

theorem processFlat_idx (m : Bool) (dir : Str) :
    ∀ (l : List (Int × Image)) (n : Nat), (processFlat m dir l n).2.2 = n + l.length := by
  intro l
  induction l with
  | nil => intro n; simp [processFlat]
  | cons pi rest ih =>
    intro n
    simp only [processFlat, List.length_cons]
    rw [ih]
    omega

theorem processFlat_append (m : Bool) (dir : Str) :
    ∀ (l1 l2 : List (Int × Image)) (n : Nat),
      processFlat m dir (l1 ++ l2) n =
        ((processFlat m dir l1 n).1 ++ (processFlat m dir l2 (n + l1.length)).1,
         (processFlat m dir l1 n).2.1 ++ (processFlat m dir l2 (n + l1.length)).2.1,
         (processFlat m dir l2 (n + l1.length)).2.2) := by
  intro l1
  induction l1 with
  | nil => intro l2 n; simp [processFlat]
  | cons pi rest ih =>
    intro l2 n
    simp only [List.cons_append, processFlat, List.length_cons, List.append_eq]
    rw [ih]
    simp only [List.append_assoc]
    have : n + 1 + rest.length = n + (rest.length + 1) := by omega
    rw [this]

theorem processImages_eq_processFlat (m : Bool) (dir : Str) (pIdx : Int) :
    ∀ (imgs : List Image) (n : Nat),
      processImages m dir pIdx imgs n =
        processFlat m dir (imgs.map (fun img => (pIdx, img))) n := by
  intro imgs
  induction imgs with
  | nil => intro n; simp [processImages, processFlat]
  | cons img rest ih =>
    intro n
    simp only [processImages, List.map_cons, processFlat]
    rw [ih]

theorem processPages_eq_processFlat (m : Bool) (dir : Str) :
    ∀ (pages : List Page) (n : Nat),
      processPages m dir pages n = processFlat m dir
        (pages.flatMap (fun p => p.images.map (fun img => (p.index, img)))) n := by
  intro pages
  induction pages with
  | nil => intro n; simp [processPages, processFlat]
  | cons page rest ih =>
    intro n
    simp only [processPages, List.flatMap_cons]
    rw [processImages_eq_processFlat, ih, processFlat_append, processFlat_idx]

/-- `extractImages` in terms of the flattened traversal: the directory
creation followed by the flat image loop from running index zero. -/
theorem extractImages_eq (resp : OCRResponse) (outDir : Str) (m : Bool) :
    extractImages resp outDir m =
      (FSEvent.mkdir (pathJoin outDir "images".toList) ::
        (processFlat m (pathJoin outDir "images".toList) (allImages resp) 0).1,
       (processFlat m (pathJoin outDir "images".toList) (allImages resp) 0).2.1) := by
  rw [extractImages, allImages, processPages_eq_processFlat]

/-! ## C6: image naming and the global running index -/

/-- When the payload decodes, the first thing the image step emits is
the image write, at the `page_<pageIndex>_img_<imgIndex><ext>` path, for
either metadata mode. -/
theorem processImage_head (m : Bool) (dir : Str) (pIdx : Int) (n : Nat) (img : Image)
    (data : Bytes)
    (hdec : decodeB64 ((dropThroughComma img.imageBase64).getD img.imageBase64) = some data) :
    (processImage m dir pIdx n img).1.head? =
      some (.write
        (pathJoin dir ("page_".toList ++ (toString pIdx).toList ++ "_img_".toList ++
          (Nat.repr n).toList ++ imageExtension img.imageBase64))
        (.bin data)) := by
  have hsave : saveImage img pIdx n dir =
      .ok (pathJoin dir ("page_".toList ++ (toString pIdx).toList ++ "_img_".toList ++
        (Nat.repr n).toList ++ imageExtension img.imageBase64), data) := by
    simp [saveImage, hdec]
  unfold processImage
  rw [hsave]
  cases m with
  | false => rfl
  | true =>
    cases img.imageAnnotation with
    | none => rfl
    | some ann =>
      dsimp only
      split <;> first
        | rfl
        | (split <;> rfl)

theorem processFlat_mem (m : Bool) (dir : Str) :
    ∀ (l : List (Int × Image)) (n k : Nat) (pIdx : Int) (img : Image) (data : Bytes),
      l[k]? = some (pIdx, img) →
      decodeB64 ((dropThroughComma img.imageBase64).getD img.imageBase64) = some data →
      FSEvent.write
        (pathJoin dir ("page_".toList ++ (toString pIdx).toList ++ "_img_".toList ++
          (Nat.repr (n + k)).toList ++ imageExtension img.imageBase64))
        (.bin data) ∈ (processFlat m dir l n).1 := by
  intro l
  induction l with
  | nil => intro n k pIdx img data h; simp at h
  | cons pi rest ih =>
    intro n k pIdx img data h hdec
    cases k with
    | zero =>
      simp only [List.getElem?_cons_zero, Option.some.injEq] at h
      subst h
      simp only [processFlat, List.mem_append, Nat.add_zero]
      left
      exact List.mem_of_mem_head?
        (Option.mem_def.mpr (processImage_head m dir pIdx n img data hdec))
    | succ k2 =>
      simp only [List.getElem?_cons_succ] at h
      simp only [processFlat, List.mem_append]
      right
      have := ih (n + 1) k2 pIdx img data h hdec
      have harith : n + 1 + k2 = n + (k2 + 1) := by omega
      rw [harith] at this
      exact this

/-- C6: the image at zero-based position `k` of the page-order traversal
whose payload decodes is written to
`<outputDir>/images/page_<p>_img_<k><ext>`, where `p` is its page's
`index` field and `k` the global running index — a function of traversal
position alone, independent of the image's service-assigned identifier,
and advanced also by skipped images (the position `k` counts every image,
decoded or not). -/
theorem C6_naming (resp : OCRResponse) (outDir : Str) (m : Bool) (k : Nat)
    (pIdx : Int) (img : Image) (data : Bytes)
    (h : (allImages resp)[k]? = some (pIdx, img))
    (hdec : decodeB64 ((dropThroughComma img.imageBase64).getD img.imageBase64) = some data) :
    FSEvent.write
      (pathJoin (pathJoin outDir "images".toList)
        ("page_".toList ++ (toString pIdx).toList ++ "_img_".toList ++
          (Nat.repr k).toList ++ imageExtension img.imageBase64))
      (.bin data) ∈ (extractImages resp outDir m).1 := by
  rw [extractImages_eq]
  simp only [List.mem_cons]
  right
  have := processFlat_mem m (pathJoin outDir "images".toList) (allImages resp) 0 k
    pIdx img data h hdec
  simpa using this

/-- C6, witness: in a two-page response whose first page holds two images
(one of them corrupt) and whose second page holds one, the second page's
image — traversal position 2 — is written as `page_1_img_2.png`: the
running index is global and the skipped corrupt image still consumed
index 1. -/
theorem C6_witness :
    FSEvent.write "out/images/page_1_img_2.png".toList (.bin [104, 101, 108, 108, 111]) ∈
      (extractImages
        ⟨[⟨0, "p0".toList, [⟨"a".toList, 0, 0, 0, 0, "aGVsbG8=".toList, none⟩,
                            ⟨"b".toList, 0, 0, 0, 0, "!!!!".toList, none⟩]⟩,
          ⟨1, "p1".toList, [⟨"c".toList, 0, 0, 0, 0, "aGVsbG8=".toList, none⟩]⟩], none⟩
        "out".toList false).1 := by
  have h := C6_naming
    ⟨[⟨0, "p0".toList, [⟨"a".toList, 0, 0, 0, 0, "aGVsbG8=".toList, none⟩,
                        ⟨"b".toList, 0, 0, 0, 0, "!!!!".toList, none⟩]⟩,
      ⟨1, "p1".toList, [⟨"c".toList, 0, 0, 0, 0, "aGVsbG8=".toList, none⟩]⟩], none⟩
    "out".toList false 2 1 ⟨"c".toList, 0, 0, 0, 0, "aGVsbG8=".toList, none⟩
    [104, 101, 108, 108, 111] (by decide) (by decide)
  exact h

/-! ## C2: per-item isolation of image decode failures -/

theorem processImage_false_of_decode (dir : Str) (pIdx : Int) (n : Nat) (img : Image)
    (data : Bytes)
    (hdec : decodeB64 ((dropThroughComma img.imageBase64).getD img.imageBase64) = some data) :
    processImage false dir pIdx n img =
      ([.write (pathJoin dir ("page_".toList ++ (toString pIdx).toList ++ "_img_".toList ++
          (Nat.repr n).toList ++ imageExtension img.imageBase64)) (.bin data)], []) := by
  unfold processImage
  have hsave : saveImage img pIdx n dir =
      .ok (pathJoin dir ("page_".toList ++ (toString pIdx).toList ++ "_img_".toList ++
        (Nat.repr n).toList ++ imageExtension img.imageBase64), data) := by
    simp [saveImage, hdec]
  rw [hsave]
  rfl

theorem processImage_false_of_corrupt (dir : Str) (pIdx : Int) (n : Nat) (img : Image)
    (hdec : decodeB64 ((dropThroughComma img.imageBase64).getD img.imageBase64) = none) :
    processImage false dir pIdx n img =
      ([], ["Error: ".toList ++ "decoding image: ".toList ++ ['\n']]) := by
  unfold processImage
  have hsave : saveImage img pIdx n dir = .error "decoding image: ".toList := by
    simp [saveImage, hdec]
  rw [hsave]

theorem processFlat_false_counts (dir : Str) :
    ∀ (l : List (Int × Image)) (n : Nat),
      ((processFlat false dir l n).1.filter isBinWrite).length =
        (l.filter (fun pi => imageDecodes pi.2)).length ∧
      (processFlat false dir l n).2.1.length =
        (l.filter (fun pi => ! imageDecodes pi.2)).length := by
  intro l
  induction l with
  | nil => intro n; simp [processFlat]
  | cons pi rest ih =>
    intro n
    have ihn := ih (n + 1)
    cases hdec : decodeB64 ((dropThroughComma pi.2.imageBase64).getD pi.2.imageBase64) with
    | some data =>
      have hp := processImage_false_of_decode dir pi.1 n pi.2 data hdec
      have hgood : imageDecodes pi.2 = true := by simp [imageDecodes, hdec]
      simp only [processFlat, hp, List.filter_cons, hgood, List.filter_append,
        List.length_append, List.singleton_append, Bool.not_true]
      constructor
      · simp only [List.filter_cons, isBinWrite, if_pos rfl]
        simp [ihn.1]
      · simp [ihn.2]
    | none =>
      have hp := processImage_false_of_corrupt dir pi.1 n pi.2 hdec
      have hbad2 : imageDecodes pi.2 = false := by simp [imageDecodes, hdec]
      simp only [processFlat, hp, List.filter_cons, hbad2, Bool.not_false]
      constructor
      · simp [ihn.1]
      · simp [ihn.2]

theorem allImages_length (resp : OCRResponse) :
    (allImages resp).length = countImages resp := by
  rw [allImages, countImages, countImages_go, List.length_flatMap]
  simp [Function.comp_def]

/-- C2: with a well-formed (or absent) document annotation and at least
one undecodable image payload, the run still succeeds: every decodable
image is written (one binary write each), every undecodable image is
skipped with one reported decode error, and the markdown file and the
document annotation (when present) are still written. -/
theorem C2_per_item_isolation (resp : OCRResponse) (outDir baseName : Str)
    (hann : docAnnOk resp = true)
    (hbad : ∃ pi ∈ allImages resp, imageDecodes pi.2 = false) :
    (runOutput resp outDir baseName false).2.2 =
      .ok (pathJoin outDir (baseName ++ ".md".toList)) ∧
    ((runOutput resp outDir baseName false).1.filter isBinWrite).length =
      ((allImages resp).filter (fun pi => imageDecodes pi.2)).length ∧
    (runOutput resp outDir baseName false).2.1.length =
      ((allImages resp).filter (fun pi => ! imageDecodes pi.2)).length ∧
    1 ≤ (runOutput resp outDir baseName false).2.1.length ∧
    (runOutput resp outDir baseName false).1.head? =
      some (.write (pathJoin outDir (baseName ++ ".md".toList))
        (.text (extractText resp).1)) ∧
    (∀ ann, resp.documentAnnotation = some ann →
      ∃ d, FSEvent.write (pathJoin outDir (baseName ++ ".annotation.json".toList)) (.text d) ∈
        (runOutput resp outDir baseName false).1) := by
  have hcnt : (extractText resp).2 = countImages resp := extractText_snd resp
  have hpos : 0 < countImages resp := by
    obtain ⟨pi, hmem, _⟩ := hbad
    have := List.length_pos_of_mem hmem
    rw [allImages_length] at this
    exact this
  have hcounts := processFlat_false_counts (pathJoin outDir "images".toList) (allImages resp) 0
  have herr1 : 1 ≤ ((allImages resp).filter (fun pi => ! imageDecodes pi.2)).length := by
    obtain ⟨pi, hmem, hf⟩ := hbad
    have : pi ∈ (allImages resp).filter (fun pi => ! imageDecodes pi.2) := by
      rw [List.mem_filter]
      exact ⟨hmem, by simp [hf]⟩
    have := List.length_pos_of_mem this
    omega
  cases hda : resp.documentAnnotation with
  | none =>
    unfold runOutput
    rw [hda]
    dsimp only
    rw [if_pos (by rw [hcnt]; exact hpos)]
    rw [extractImages_eq]
    refine ⟨rfl, ?_, ?_, ?_, rfl, ?_⟩
    · simpa [isBinWrite] using hcounts.1
    · simpa using hcounts.2
    · have herr2 := herr1
      rw [← hcounts.2] at herr2
      simpa using herr2
    · intro ann hsome
      simp at hsome
  | some ann =>
    have hok : ∀ s, ann = .str s → (goParseJson s).isSome = true := by
      intro s hs
      rw [docAnnOk, hda, hs] at hann
      exact hann
    obtain ⟨d, hd⟩ := saveAnnotation_ok ann
      (pathJoin outDir (baseName ++ ".annotation.json".toList)) hok
    unfold runOutput
    rw [hda]
    dsimp only
    rw [hd]
    dsimp only
    rw [if_pos (by rw [hcnt]; exact hpos)]
    rw [extractImages_eq]
    refine ⟨rfl, ?_, ?_, ?_, rfl, ?_⟩
    · simpa [isBinWrite] using hcounts.1
    · simpa using hcounts.2
    · have herr2 := herr1
      rw [← hcounts.2] at herr2
      simpa using herr2
    · intro ann2 hsome
      exact ⟨d, by simp⟩

/-- The spec's own scenario for C2: five images across two pages, one of
them corrupt, plus a structured document annotation. -/
def c2Resp : OCRResponse :=
  ⟨[⟨0, "p0".toList, [⟨"a".toList, 0, 0, 0, 0, "aGVsbG8=".toList, none⟩,
                      ⟨"b".toList, 0, 0, 0, 0, "!!!!".toList, none⟩,
                      ⟨"c".toList, 0, 0, 0, 0, "aGVsbG8=".toList, none⟩]⟩,
    ⟨1, "p1".toList, [⟨"d".toList, 0, 0, 0, 0, "aGVsbG8=".toList, none⟩,
                      ⟨"e".toList, 0, 0, 0, 0, "aGVsbG8=".toList, none⟩]⟩],
    some (.obj [("a".toList, .num "1".toList)])⟩

/-- C2, witness: one corrupt image among five yields four image files,
one reported error, a successful outcome, and the markdown and document
annotation still written. -/
theorem C2_witness :
    ((runOutput c2Resp "out".toList "doc".toList false).1.filter isBinWrite).length = 4 ∧
    (runOutput c2Resp "out".toList "doc".toList false).2.1.length = 1 ∧
    (runOutput c2Resp "out".toList "doc".toList false).2.2 = .ok "out/doc.md".toList ∧
    (runOutput c2Resp "out".toList "doc".toList false).1.head? =
      some (.write "out/doc.md".toList (.text "p0\n\np1\n\n".toList)) ∧
    ∃ d, FSEvent.write "out/doc.annotation.json".toList (.text d) ∈
      (runOutput c2Resp "out".toList "doc".toList false).1 := by
  have h := C2_per_item_isolation c2Resp "out".toList "doc".toList (by decide)
    ⟨(0, ⟨"b".toList, 0, 0, 0, 0, "!!!!".toList, none⟩), by decide, by decide⟩
  refine ⟨h.2.1.trans (by decide), h.2.2.1.trans (by decide), h.1, ?_, ?_⟩
  · exact h.2.2.2.2.1.trans (by decide)
  · exact h.2.2.2.2.2 (.obj [("a".toList, .num "1".toList)]) rfl

/-! ## C7: fenced-code wrappers parse identically -/

/-- The backtick character, named rather than written. -/
def backtick : Char := "`".toList.headD ' '

theorem dropWhile_eq_self_of_head {p : Char → Bool} :
    ∀ l : Str, (∀ c, l.head? = some c → p c = false) → l.dropWhile p = l
  | [], _ => rfl
  | c :: t, h => by
    rw [List.dropWhile_cons, if_neg]
    simp [h c rfl]

/-- Trimming is the identity when neither end is whitespace. -/
theorem goTrimSpace_eq_self (l : Str)
    (h1 : ∀ c, l.head? = some c → goIsSpace c = false)
    (h2 : ∀ c, l.getLast? = some c → goIsSpace c = false) :
    goTrimSpace l = l := by
  have e1 : l.dropWhile goIsSpace = l := dropWhile_eq_self_of_head l h1
  have e2 : l.reverse.dropWhile goIsSpace = l.reverse := by
    refine dropWhile_eq_self_of_head l.reverse (fun c hc => h2 c ?_)
    rwa [List.head?_reverse] at hc
  rw [goTrimSpace, e1, e2, List.reverse_reverse]

/-- Dropping a trailing whitespace character commutes with trimming. -/
theorem goTrimSpace_append_ws (l : Str) (w : Char) (hw : goIsSpace w = true) :
    goTrimSpace (l ++ [w]) = goTrimSpace l := by
  unfold goTrimSpace
  rw [List.dropWhile_append]
  by_cases h : (l.dropWhile goIsSpace).isEmpty
  · rw [if_pos h]
    have : l.dropWhile goIsSpace = [] := by simpa [List.isEmpty_iff] using h
    simp [this, List.dropWhile, hw]
  · rw [if_neg h]
    simp only [List.reverse_append, List.reverse_cons, List.reverse_nil, List.nil_append,
      List.singleton_append]
    rw [List.dropWhile_cons, if_pos (by simp [hw])]

theorem goTrimSpace_within (s : Str) : goTrimSpace s <:+: s := by
  have h1 : s.dropWhile goIsSpace <:+ s := List.dropWhile_suffix goIsSpace
  have h3 : List.dropWhile goIsSpace (s.dropWhile goIsSpace).reverse <:+
      (s.dropWhile goIsSpace).reverse := List.dropWhile_suffix goIsSpace
  have h4 := List.reverse_prefix.mpr h3
  rw [List.reverse_reverse] at h4
  have h2 : goTrimSpace s <+: s.dropWhile goIsSpace := h4
  exact h2.isInfix.trans h1.isInfix

/-- The first newline of the json-tagged fence opener is its own last
character. -/
theorem dropThroughNl_json_fence (s : Str) :
    dropThroughNl ("```json\n".toList ++ s) = some s := by
  simp [dropThroughNl]

/-- Likewise for a bare fence opener. -/
theorem dropThroughNl_bare_fence (s : Str) :
    dropThroughNl ("```\n".toList ++ s) = some s := by
  simp [dropThroughNl]

/-- Cutting from the last triple backtick of `s` followed by a newline
and a closing fence leaves `s` and the newline: the closing fence is the
rightmost occurrence, whatever `s` holds. -/
theorem cutFromLastTriple_closing :
    ∀ s : Str, cutFromLastTriple (s ++ "\n```".toList) = some (s ++ ['\n'])
  | [] => by decide
  | c :: s => by
    have ih := cutFromLastTriple_closing s
    simp only [List.cons_append, cutFromLastTriple, List.append_eq, ih]

/-- A trimmed text with no triple backtick does not start with one. -/
theorem not_fence_of_no_triple (s : Str) (h : containsSub tripleBacktick s = false) :
    goHasPrefix tripleBacktick (goTrimSpace s) = false := by
  by_contra hc
  have hpre : tripleBacktick <+: goTrimSpace s := by
    rw [ goHasPrefix] at hc
    have := Bool.of_not_eq_false hc
    rwa [ List.isPrefixOf_iff_prefix] at this
  have : tripleBacktick <:+: s := hpre.isInfix.trans (goTrimSpace_within s)
  rw [← containsSub_iff] at this
  rw [h] at this
  cases this

theorem trim_no_op_fenced (pre : Str) (s : Str)
    (hh : pre.head? = some backtick) :
    goTrimSpace (pre ++ s ++ "\n```".toList) = pre ++ s ++ "\n```".toList := by
  refine goTrimSpace_eq_self _ (fun c hc => ?_) (fun c hc => ?_)
  · rw [List.append_assoc, List.head?_append, hh] at hc
    simp only [Option.or_some, Option.some.injEq] at hc
    subst hc
    decide
  · rw [List.getLast?_append] at hc
    rw [show (("\n```".toList : Str)).getLast? = some backtick from by decide] at hc
    simp only [Option.or_some, Option.some.injEq] at hc
    subst hc
    decide

/-- `stripFence` on text wrapped in a json-tagged fence yields the
trimmed payload. -/
theorem stripFence_json_fence (s : Str) :
    stripFence ("```json\n".toList ++ s ++ "\n```".toList) = goTrimSpace s := by
  rw [stripFence, trim_no_op_fenced "```json\n".toList s (by decide)]
  have hb : goHasPrefix tripleBacktick ("```json\n".toList ++ s ++ "\n```".toList) = true := by
    rw [ goHasPrefix]
    refine List.isPrefixOf_iff_prefix.mpr ⟨"json\n".toList ++ s ++ "\n```".toList, ?_⟩
    rw [show ("```json\n".toList : Str) = tripleBacktick ++ "json\n".toList from by decide]
    simp [tripleBacktick]
  rw [if_pos hb]
  rw [List.append_assoc, dropThroughNl_json_fence]
  simp only [Option.getD_some]
  rw [cutFromLastTriple_closing]
  simp only [Option.getD_some]
  exact goTrimSpace_append_ws s '\n' (by decide)

/-- Likewise for a bare fence opener. -/
theorem stripFence_bare_fence (s : Str) :
    stripFence ("```\n".toList ++ s ++ "\n```".toList) = goTrimSpace s := by
  rw [stripFence, trim_no_op_fenced "```\n".toList s (by decide)]
  have hb : goHasPrefix tripleBacktick ("```\n".toList ++ s ++ "\n```".toList) = true := by
    rw [ goHasPrefix]
    refine List.isPrefixOf_iff_prefix.mpr ⟨"\n".toList ++ s ++ "\n```".toList, ?_⟩
    rw [show ("```\n".toList : Str) = tripleBacktick ++ "\n".toList from by decide]
    simp [tripleBacktick]
  rw [if_pos hb]
  rw [List.append_assoc, dropThroughNl_bare_fence]
  simp only [Option.getD_some]
  rw [cutFromLastTriple_closing]
  simp only [Option.getD_some]
  exact goTrimSpace_append_ws s '\n' (by decide)

/-- `stripFence` on unfenced text is just trimming. -/
theorem stripFence_plain (s : Str) (h : containsSub tripleBacktick s = false) :
    stripFence s = goTrimSpace s := by
  rw [stripFence]
  rw [if_neg]
  rw [not_fence_of_no_triple s h]
  simp

/-- C7: for a payload with no triple backtick, a chat response whose
single choice's content wraps it in a fenced block — tagged `json` or
bare, the payload on its own lines — is analyzed to exactly the same
result (metadata or parse failure) as the bare payload. -/
theorem C7_fence_invariance (s : Str) (h : containsSub tripleBacktick s = false) :
    analyzeChatResponse
        ⟨[⟨⟨"assistant".toList,
          some (.str ("```json\n".toList ++ s ++ "\n```".toList))⟩⟩]⟩ =
      analyzeChatResponse ⟨[⟨⟨"assistant".toList, some (.str s)⟩⟩]⟩ ∧
    analyzeChatResponse
        ⟨[⟨⟨"assistant".toList,
          some (.str ("```\n".toList ++ s ++ "\n```".toList))⟩⟩]⟩ =
      analyzeChatResponse ⟨[⟨⟨"assistant".toList, some (.str s)⟩⟩]⟩ := by
  constructor
  · simp only [analyzeChatResponse]
    rw [stripFence_json_fence, stripFence_plain s h]
  · simp only [analyzeChatResponse]
    rw [stripFence_bare_fence, stripFence_plain s h]

/-- C7, witness: a concrete metadata payload parses to the same
successful result fenced or unfenced. -/
theorem C7_witness :
    analyzeChatResponse
        ⟨[⟨⟨"assistant".toList,
          some (.str ("```json\n".toList ++
            "\x7b\"description\": \"d\", \"type\": \"photo\", \"structured_data\": null\x7d".toList ++
            "\n```".toList))⟩⟩]⟩ =
      analyzeChatResponse ⟨[⟨⟨"assistant".toList,
        some (.str
          "\x7b\"description\": \"d\", \"type\": \"photo\", \"structured_data\": null\x7d".toList)⟩⟩]⟩ :=
  (C7_fence_invariance
    "\x7b\"description\": \"d\", \"type\": \"photo\", \"structured_data\": null\x7d".toList
    (by decide)).1
